import Mathlib

/-!
Verification of the Instagram follower/following analysis script
(`analyse_insta.py`).

The script has two functions:

* `get_values_from_json(filepath)`: reads a JSON file and extracts every
  `href` field of every sub-record of the `string_list_data` field of each
  record, normalising with `rstrip('/')`, into a Python `set`.
* `analyze_instagram_lists(followers_file, following_file, output_file)`:
  extracts the two sets, short-circuits when both are empty, otherwise
  computes intersection and the two differences and writes a text report.

Shallow embedding choices:

* JSON values are the inductive `Json`.
* The result of opening and parsing a file is `FileRead`: the file may be
  missing (`os.path.exists` fails), its contents may fail to parse
  (`json.JSONDecodeError`), or parsing yields a `Json` value.
* Python `set` becomes `Finset String`; `print` diagnostics become a
  returned `List Diag`.
* A non-string `href` value has no `.rstrip` method, so Python raises
  `AttributeError`, caught by the script's generic `except Exception`
  handler which ends the loop; we model this with a `Bool` abort flag in
  the loop result (values so far, diagnostics so far, aborted?).
* `analyze_instagram_lists` returns `Option String`: `none` models the
  short-circuit that writes no output file, `some r` models writing the
  report text `r` (the `IOError` branch of the script concerns the file
  system, not the report's content, and is not modelled).
-/

namespace Insta

/-- JSON values as produced by `json.load`. -/
inductive Json where
  | null : Json
  | bool (b : Bool) : Json
  | num (n : Int) : Json
  | str (s : String) : Json
  | arr (items : List Json) : Json
  | obj (fields : List (String × Json)) : Json

/-- `isinstance(v, list)` view: `some items` exactly when `v` is a JSON array. -/
def Json.asArr : Json → Option (List Json)
  | .arr items => some items
  | _ => none

/-- `isinstance(v, dict)` view: `some fields` exactly when `v` is a JSON object. -/
def Json.asObj : Json → Option (List (String × Json))
  | .obj fields => some fields
  | _ => none

/-- `isinstance(v, str)` view: `some s` exactly when `v` is a JSON string
(only strings have the `.rstrip` method). -/
def Json.asStr : Json → Option String
  | .str s => some s
  | _ => none

/-- The diagnostics the script prints. -/
inductive Diag where
  | fileNotFound : Diag
  | invalidJson : Diag
  | unexpectedShape : Diag
  | itemNotDict (i : Nat) : Diag
  | stringListMissing (i : Nat) : Diag
  | subItemNotDict (i j : Nat) : Diag
  | hrefMissing (i j : Nat) : Diag
  | unexpectedError : Diag
deriving DecidableEq

/-- What opening and parsing the file at a path can yield. -/
inductive FileRead where
  | notFound : FileRead
  | invalidJson : FileRead
  | parsed (data : Json) : FileRead

/-- Python's `s.rstrip('/')`: remove all trailing `'/'` characters. -/
def pyRstripSlash (s : String) : String :=
  String.mk ((s.data.reverse.dropWhile (fun c => c == '/')).reverse)

/-- Does the string end with `'/'`? -/
def endsWithSlash (s : String) : Bool :=
  match s.data.reverse.head? with
  | some c => c == '/'
  | none => false

/-- Prepend a diagnostic to a loop result. -/
def consDiag (d : Diag) : Finset String × List Diag × Bool →
    Finset String × List Diag × Bool
  | (v, ds, e) => (v, d :: ds, e)

/-- Prepend diagnostics to a loop result. -/
def appendDiags (ds1 : List Diag) : Finset String × List Diag × Bool →
    Finset String × List Diag × Bool
  | (v, ds, e) => (v, ds1 ++ ds, e)

/-- The inner loop of `get_values_from_json` over `item['string_list_data']`
(sub-items `j, j+1, ...` of item `i`): result is (values, diagnostics,
aborted by exception?).  A present but non-string `href` raises
`AttributeError` at `.rstrip`, aborting the whole extraction. -/
def processSubs (i : Nat) : List Json → Nat → Finset String →
    Finset String × List Diag × Bool
  | [], _, vals => (vals, [], false)
  | sub :: rest, j, vals =>
    match sub.asObj with
    | none => consDiag (Diag.subItemNotDict i j) (processSubs i rest (j + 1) vals)
    | some fields =>
      match fields.lookup "href" with
      | none => consDiag (Diag.hrefMissing i j) (processSubs i rest (j + 1) vals)
      | some v =>
        match v.asStr with
        | none => (vals, [], true)
        | some s => processSubs i rest (j + 1) (insert (pyRstripSlash s) vals)

/-- The outer loop of `get_values_from_json` over `items_to_process`
(items `i, i+1, ...`).  A record that is not a dict, or whose
`string_list_data` is missing or not a list, is skipped with a
diagnostic; an abort in the inner loop aborts the outer loop. -/
def processItems : List Json → Nat → Finset String →
    Finset String × List Diag × Bool
  | [], _, vals => (vals, [], false)
  | item :: rest, i, vals =>
    match item.asObj with
    | none => consDiag (Diag.itemNotDict i) (processItems rest (i + 1) vals)
    | some fields =>
      match (fields.lookup "string_list_data").bind Json.asArr with
      | none => consDiag (Diag.stringListMissing i) (processItems rest (i + 1) vals)
      | some subs =>
        let r1 := processSubs i subs 0 vals
        if r1.2.2 then r1
        else appendDiags r1.2.1 (processItems rest (i + 1) r1.1)

/-- Running the item loop from the empty set; the generic
`except Exception` handler prints one more diagnostic when the loop
aborted, and `values` is returned either way. -/
def runItems (items : List Json) : Finset String × List Diag :=
  let r := processItems items 0 ∅
  (r.1, if r.2.2 then r.2.1 ++ [Diag.unexpectedError] else r.2.1)

/-- `get_values_from_json`: missing file and invalid JSON yield the empty
set with a diagnostic; a top-level list is processed directly; a top-level
dict is processed through its `relationships_following` key when that key
holds a list; anything else is an unexpected shape. -/
def get_values_from_json : FileRead → Finset String × List Diag
  | .notFound => (∅, [Diag.fileNotFound])
  | .invalidJson => (∅, [Diag.invalidJson])
  | .parsed data =>
    match data.asArr with
    | some items => runItems items
    | none =>
      match data.asObj.bind
          (fun fields => (fields.lookup "relationships_following").bind Json.asArr) with
      | some items => runItems items
      | none => (∅, [Diag.unexpectedShape])

/-- The identifiers a single well-formed sub-record contributes: its
`href` value, normalised, when the sub-record is a dict with a string
`href`; nothing otherwise. -/
def subHrefs (sub : Json) : Finset String :=
  match sub.asObj with
  | none => ∅
  | some fields =>
    match (fields.lookup "href").bind Json.asStr with
    | some s => {pyRstripSlash s}
    | none => ∅

/-- Identifiers contributed by a list of sub-records. -/
def subsHrefs : List Json → Finset String
  | [] => ∅
  | sub :: rest => subHrefs sub ∪ subsHrefs rest

/-- The identifiers a single record contributes: those of its
`string_list_data` sub-records, when that field is present and a list. -/
def itemHrefs (item : Json) : Finset String :=
  match item.asObj with
  | none => ∅
  | some fields =>
    match (fields.lookup "string_list_data").bind Json.asArr with
    | none => ∅
    | some subs => subsHrefs subs

/-- Identifiers contributed by a list of records. -/
def itemsHrefs : List Json → Finset String
  | [] => ∅
  | item :: rest => itemHrefs item ∪ itemsHrefs rest

/-- A sub-record is exception-free when its `href` field, if it is a dict
and the field is present, holds a string (so `.rstrip` cannot raise). -/
def subOk (sub : Json) : Bool :=
  match sub.asObj with
  | none => true
  | some fields =>
    match fields.lookup "href" with
    | none => true
    | some v => (v.asStr).isSome

/-- A record is exception-free when every sub-record of its
`string_list_data` list (if reachable) is exception-free. -/
def itemOk (item : Json) : Bool :=
  match item.asObj with
  | none => true
  | some fields =>
    match (fields.lookup "string_list_data").bind Json.asArr with
    | none => true
    | some subs => subs.all subOk

/-- A record list is exception-free when each record is. -/
def itemsOk (items : List Json) : Bool :=
  items.all itemOk

/-- A sub-record whose `href` field is present but not a string: processing
it raises `AttributeError` at `.rstrip`. -/
def hrefNonString (sub : Json) : Bool :=
  match sub.asObj with
  | none => false
  | some fields =>
    match fields.lookup "href" with
    | none => false
    | some v => (v.asStr).isNone

/-- The diagnostic (if any) with which the outer loop skips a whole
record: not a dict, or `string_list_data` missing or not a list. -/
def recordSkipDiag (i : Nat) (item : Json) : Option Diag :=
  match item.asObj with
  | none => some (Diag.itemNotDict i)
  | some fields =>
    match (fields.lookup "string_list_data").bind Json.asArr with
    | none => some (Diag.stringListMissing i)
    | some _ => none

/-- The diagnostic (if any) with which the inner loop skips a single
sub-record: not a dict, or `href` missing. -/
def subSkipDiag (i j : Nat) (sub : Json) : Option Diag :=
  match sub.asObj with
  | none => some (Diag.subItemNotDict i j)
  | some fields =>
    match fields.lookup "href" with
    | none => some (Diag.hrefMissing i j)
    | some _ => none

/-- A record that is a dict whose `string_list_data` holds the given list. -/
def mkSldsItem (subs : List Json) : Json :=
  Json.obj [("string_list_data", Json.arr subs)]

/-- A well-formed sub-record with the given `href`. -/
def goodSub (s : String) : Json :=
  Json.obj [("href", Json.str s)]

/-- A well-formed record with a single sub-record with the given `href`. -/
def goodRec (s : String) : Json :=
  mkSldsItem [goodSub s]

/-- Demo input: two records whose hrefs differ only by a trailing slash. -/
def demoCollapse : Json :=
  Json.arr [goodRec "a/b/", goodRec "a/b"]

/-- Demo input: a single record whose href is just a slash. -/
def demoSlashOnly : Json :=
  Json.arr [goodRec "/"]

/-- Demo input: a malformed (non-dict) record between two well-formed ones. -/
def demoSkipItems : List Json :=
  [goodRec "a", Json.num 3, goodRec "b"]

/-- Demo input: a top-level dict whose only key is not
`relationships_following` but does hold a list of well-formed records. -/
def demoWrongKey : Json :=
  Json.obj [("foo", Json.arr [goodRec "x"])]

/-- Demo input: a record whose second sub-record has a numeric `href`,
placed between well-formed sub-records and followed by another record. -/
def demoBadHref : Json :=
  Json.arr [goodRec "a",
    mkSldsItem [goodSub "b", Json.obj [("href", Json.num 7)], goodSub "c"],
    goodRec "d"]

/-- Demo input: a single well-formed record. -/
def demoFollowers : Json :=
  Json.arr [goodRec "a"]

/-- `followers.intersection(following)`. -/
def mutuals (followers following : Finset String) : Finset String :=
  followers ∩ following

/-- `following.difference(followers)`. -/
def not_following_back (followers following : Finset String) : Finset String :=
  following \ followers

/-- `followers.difference(following)`. -/
def you_dont_follow_back (followers following : Finset String) : Finset String :=
  followers \ following

/-- One report section: title line, then either the sorted `- `-prefixed
entries (`if s:` is Python set truthiness, i.e. nonemptiness) or the
`- None` placeholder, then a blank line. -/
def sectionText (title : String) (s : Finset String) : String :=
  title ++ "\n" ++
    (if s = ∅ then "- None\n"
     else String.join ((s.sort (· ≤ ·)).map (fun u => "- " ++ u ++ "\n"))) ++
    "\n"

/-- The full report text written by `analyze_instagram_lists`. -/
def reportText (followers following : Finset String) : String :=
  "--- Instagram List Analysis ---\n\n" ++
    sectionText "Users you follow who DO NOT follow you back:"
      (not_following_back followers following) ++
    sectionText "Users who follow you that you DO NOT follow back:"
      (you_dont_follow_back followers following) ++
    sectionText "Mutual followers (you follow each other):"
      (mutuals followers following)

/-- `analyze_instagram_lists`: extract both sets; when both are empty
return without writing (`none`); otherwise write the report. -/
def analyze_instagram_lists (followers_file following_file : FileRead) :
    Option String :=
  let followers := (get_values_from_json followers_file).1
  let following := (get_values_from_json following_file).1
  if followers = ∅ ∧ following = ∅ then none
  else some (reportText followers following)

/-! ### Helper lemmas -/

theorem consDiag_fst (d : Diag) (r : Finset String × List Diag × Bool) :
    (consDiag d r).1 = r.1 := by
  obtain ⟨v, ds, e⟩ := r; rfl

theorem consDiag_diags (d : Diag) (r : Finset String × List Diag × Bool) :
    (consDiag d r).2.1 = d :: r.2.1 := by
  obtain ⟨v, ds, e⟩ := r; rfl

theorem consDiag_abort (d : Diag) (r : Finset String × List Diag × Bool) :
    (consDiag d r).2.2 = r.2.2 := by
  obtain ⟨v, ds, e⟩ := r; rfl

theorem appendDiags_fst (ds1 : List Diag) (r : Finset String × List Diag × Bool) :
    (appendDiags ds1 r).1 = r.1 := by
  obtain ⟨v, ds, e⟩ := r; rfl

theorem appendDiags_diags (ds1 : List Diag) (r : Finset String × List Diag × Bool) :
    (appendDiags ds1 r).2.1 = ds1 ++ r.2.1 := by
  obtain ⟨v, ds, e⟩ := r; rfl

theorem appendDiags_abort (ds1 : List Diag) (r : Finset String × List Diag × Bool) :
    (appendDiags ds1 r).2.2 = r.2.2 := by
  obtain ⟨v, ds, e⟩ := r; rfl

theorem dropWhile_dropWhile (p : Char → Bool) (l : List Char) :
    List.dropWhile p (List.dropWhile p l) = List.dropWhile p l := by
  induction l with
  | nil => rfl
  | cons a l ih =>
    by_cases h : p a = true
    · simp [List.dropWhile_cons, h, ih]
    · simp [List.dropWhile_cons, h]

theorem head?_dropWhile_false (p : Char → Bool) (l : List Char) :
    ∀ c : Char, (List.dropWhile p l).head? = some c → p c = false := by
  induction l with
  | nil => intro c h; simp [List.dropWhile] at h
  | cons a l ih =>
    intro c h
    by_cases hp : p a = true
    · rw [List.dropWhile_cons, if_pos hp] at h
      exact ih c h
    · rw [List.dropWhile_cons, if_neg hp] at h
      simp only [List.head?_cons, Option.some.injEq] at h
      subst h
      exact Bool.eq_false_iff.mpr hp

theorem pyRstripSlash_idem (s : String) :
    pyRstripSlash (pyRstripSlash s) = pyRstripSlash s := by
  simp [pyRstripSlash, List.reverse_reverse, dropWhile_dropWhile]

theorem endsWithSlash_pyRstripSlash (s : String) :
    endsWithSlash (pyRstripSlash s) = false := by
  unfold endsWithSlash pyRstripSlash
  simp only [List.reverse_reverse]
  cases h : (List.dropWhile (fun c => c == '/') s.data.reverse).head? with
  | none => rfl
  | some c => exact head?_dropWhile_false _ _ c h

theorem itemHrefs_subset_itemsHrefs {item : Json} :
    ∀ {items : List Json}, item ∈ items → itemHrefs item ⊆ itemsHrefs items := by
  intro items h
  induction items with
  | nil => cases h
  | cons a rest ih =>
    rcases List.mem_cons.mp h with h1 | h1
    · subst h1
      exact Finset.subset_union_left.trans (le_of_eq rfl)
    · exact (ih h1).trans Finset.subset_union_right

/-- Exception-free inner loop: the values are the incoming set joined with
the hrefs of the sub-record list, and the loop does not abort. -/
theorem processSubs_ok (i : Nat) :
    ∀ (subs : List Json), subs.all subOk = true →
      ∀ (j : Nat) (vals : Finset String),
        (processSubs i subs j vals).1 = vals ∪ subsHrefs subs ∧
        (processSubs i subs j vals).2.2 = false := by
  intro subs
  induction subs with
  | nil => intro _ j vals; simp [processSubs, subsHrefs]
  | cons sub rest ih =>
    intro h j vals
    rw [List.all_cons, Bool.and_eq_true] at h
    obtain ⟨h1, h2⟩ := h
    cases hobj : sub.asObj with
    | none =>
      have hv := ih h2 (j + 1) vals
      simp [processSubs, subsHrefs, subHrefs, hobj, consDiag_fst, consDiag_abort,
        hv.1, hv.2, Finset.union_assoc]
    | some fields =>
      simp only [subOk, hobj] at h1
      cases hl : fields.lookup "href" with
      | none =>
        have hv := ih h2 (j + 1) vals
        simp [processSubs, subsHrefs, subHrefs, hobj, hl, consDiag_fst, consDiag_abort,
          hv.1, hv.2, Finset.union_assoc]
      | some v =>
        simp only [hl] at h1
        cases hs : v.asStr with
        | none => rw [hs] at h1; simp at h1
        | some s =>
          have hv := ih h2 (j + 1) (insert (pyRstripSlash s) vals)
          have hfst : (processSubs i (sub :: rest) j vals).1 =
              insert (pyRstripSlash s) vals ∪ subsHrefs rest := by
            simp [processSubs, hobj, hl, hs, hv.1]
          have habort : (processSubs i (sub :: rest) j vals).2.2 = false := by
            simp [processSubs, hobj, hl, hs, hv.2]
          refine ⟨?_, habort⟩
          rw [hfst]
          simp [subsHrefs, subHrefs, hobj, hl, hs, Finset.insert_eq,
            Finset.union_assoc, Finset.union_left_comm, Finset.union_comm]

/-- Exception-free outer loop: the values are the incoming set joined with
the hrefs of the record list, and the loop does not abort. -/
theorem processItems_ok :
    ∀ (items : List Json), itemsOk items = true →
      ∀ (i : Nat) (vals : Finset String),
        (processItems items i vals).1 = vals ∪ itemsHrefs items ∧
        (processItems items i vals).2.2 = false := by
  intro items
  induction items with
  | nil => intro _ i vals; simp [processItems, itemsHrefs]
  | cons item rest ih =>
    intro h i vals
    rw [itemsOk, List.all_cons, Bool.and_eq_true] at h
    obtain ⟨h1, h2⟩ := h
    cases hobj : item.asObj with
    | none =>
      have hv := ih h2 (i + 1) vals
      simp [processItems, itemsHrefs, itemHrefs, hobj, consDiag_fst, consDiag_abort,
        hv.1, hv.2, Finset.union_assoc]
    | some fields =>
      simp only [itemOk, hobj] at h1
      cases hsl : (fields.lookup "string_list_data").bind Json.asArr with
      | none =>
        have hv := ih h2 (i + 1) vals
        simp [processItems, itemsHrefs, itemHrefs, hobj, hsl, consDiag_fst,
          consDiag_abort, hv.1, hv.2, Finset.union_assoc]
      | some subs =>
        simp only [hsl] at h1
        have hsub := processSubs_ok i subs h1 0 vals
        have hrest := ih h2 (i + 1) (vals ∪ subsHrefs subs)
        constructor
        · simp [processItems, hobj, hsl, hsub.2, appendDiags_fst, hrest.1, hsub.1,
            itemsHrefs, itemHrefs, Finset.union_assoc]
        · simp [processItems, hobj, hsl, hsub.1, hsub.2, appendDiags_abort, hrest.2]

/-- Each skipped sub-record's diagnostic appears in the inner loop's
diagnostics, provided the loop does not abort earlier. -/
theorem processSubs_skip_mem (i : Nat) :
    ∀ (subs : List Json), subs.all subOk = true →
      ∀ (j0 : Nat) (vals : Finset String) (k : Nat) (hk : k < subs.length) (d : Diag),
        subSkipDiag i (j0 + k) (subs.get ⟨k, hk⟩) = some d →
        d ∈ (processSubs i subs j0 vals).2.1 := by
  intro subs
  induction subs with
  | nil => intro _ j0 vals k hk; cases hk
  | cons sub rest ih =>
    intro h j0 vals k hk d hd
    rw [List.all_cons, Bool.and_eq_true] at h
    obtain ⟨h1, h2⟩ := h
    cases k with
    | zero =>
      simp only [List.get] at hd
      cases hobj : sub.asObj with
      | none =>
        simp only [subSkipDiag, hobj, Option.some.injEq] at hd
        simp [processSubs, hobj, consDiag_diags, ← hd]
      | some fields =>
        simp only [subSkipDiag, hobj] at hd
        cases hl : fields.lookup "href" with
        | none =>
          simp only [hl, Option.some.injEq] at hd
          simp [processSubs, hobj, hl, consDiag_diags, ← hd]
        | some v => rw [hl] at hd; simp at hd
    | succ k =>
      simp only [List.get] at hd
      have harith : j0 + (k + 1) = (j0 + 1) + k := by omega
      rw [harith] at hd
      cases hobj : sub.asObj with
      | none =>
        have := ih h2 (j0 + 1) vals k (Nat.lt_of_succ_lt_succ hk) d hd
        simp [processSubs, hobj, consDiag_diags]
        exact Or.inr this
      | some fields =>
        simp only [subOk, hobj] at h1
        cases hl : fields.lookup "href" with
        | none =>
          have := ih h2 (j0 + 1) vals k (Nat.lt_of_succ_lt_succ hk) d hd
          simp [processSubs, hobj, hl, consDiag_diags]
          exact Or.inr this
        | some v =>
          simp only [hl] at h1
          cases hs : v.asStr with
          | none => rw [hs] at h1; simp at h1
          | some s =>
            have := ih h2 (j0 + 1) (insert (pyRstripSlash s) vals) k
              (Nat.lt_of_succ_lt_succ hk) d hd
            simpa [processSubs, hobj, hl, hs] using this

/-- Each skipped record's diagnostic appears in the outer loop's
diagnostics, provided no earlier abort. -/
theorem processItems_skip_mem :
    ∀ (items : List Json), itemsOk items = true →
      ∀ (i0 : Nat) (vals : Finset String) (k : Nat) (hk : k < items.length) (d : Diag),
        recordSkipDiag (i0 + k) (items.get ⟨k, hk⟩) = some d →
        d ∈ (processItems items i0 vals).2.1 := by
  intro items
  induction items with
  | nil => intro _ i0 vals k hk; cases hk
  | cons item rest ih =>
    intro h i0 vals k hk d hd
    rw [itemsOk, List.all_cons, Bool.and_eq_true] at h
    obtain ⟨h1, h2⟩ := h
    cases k with
    | zero =>
      simp only [List.get] at hd
      cases hobj : item.asObj with
      | none =>
        simp only [recordSkipDiag, hobj, Option.some.injEq] at hd
        simp [processItems, hobj, consDiag_diags, ← hd]
      | some fields =>
        simp only [recordSkipDiag, hobj] at hd
        cases hsl : (fields.lookup "string_list_data").bind Json.asArr with
        | none =>
          simp only [hsl, Option.some.injEq] at hd
          simp [processItems, hobj, hsl, consDiag_diags, ← hd]
        | some subs => rw [hsl] at hd; simp at hd
    | succ k =>
      simp only [List.get] at hd
      have harith : i0 + (k + 1) = (i0 + 1) + k := by omega
      rw [harith] at hd
      cases hobj : item.asObj with
      | none =>
        have := ih h2 (i0 + 1) vals k (Nat.lt_of_succ_lt_succ hk) d hd
        simp [processItems, hobj, consDiag_diags]
        exact Or.inr this
      | some fields =>
        simp only [itemOk, hobj] at h1
        cases hsl : (fields.lookup "string_list_data").bind Json.asArr with
        | none =>
          have := ih h2 (i0 + 1) vals k (Nat.lt_of_succ_lt_succ hk) d hd
          simp [processItems, hobj, hsl, consDiag_diags]
          exact Or.inr this
        | some subs =>
          simp only [hsl] at h1
          have hsub := processSubs_ok i0 subs h1 0 vals
          have := ih h2 (i0 + 1) (processSubs i0 subs 0 vals).1 k
            (Nat.lt_of_succ_lt_succ hk) d hd
          simp [processItems, hobj, hsl, hsub.2, appendDiags_diags]
          exact Or.inr this

/-- Each skipped sub-record's diagnostic appears in the outer loop's
diagnostics (the sub-record sits in record `k`'s `string_list_data`),
provided no abort. -/
theorem processItems_subdiag_mem :
    ∀ (items : List Json), itemsOk items = true →
      ∀ (i0 : Nat) (vals : Finset String) (k : Nat) (hk : k < items.length)
        (fields : List (String × Json)) (subs : List Json),
        (items.get ⟨k, hk⟩).asObj = some fields →
        (fields.lookup "string_list_data").bind Json.asArr = some subs →
        ∀ (m : Nat) (hm : m < subs.length) (d : Diag),
          subSkipDiag (i0 + k) m (subs.get ⟨m, hm⟩) = some d →
          d ∈ (processItems items i0 vals).2.1 := by
  intro items
  induction items with
  | nil => intro _ i0 vals k hk; cases hk
  | cons item rest ih =>
    intro h i0 vals k hk fields subs hobj hsl m hm d hd
    rw [itemsOk, List.all_cons, Bool.and_eq_true] at h
    obtain ⟨h1, h2⟩ := h
    cases k with
    | zero =>
      simp only [List.get] at hobj
      simp only [itemOk, hobj, hsl] at h1
      have hsub := processSubs_ok i0 subs h1 0 vals
      have hmem : d ∈ (processSubs i0 subs 0 vals).2.1 := by
        have h0 : (0 : Nat) + m = m := by omega
        refine processSubs_skip_mem i0 subs h1 0 vals m hm d ?_
        rw [h0]
        simpa using hd
      simp [processItems, hobj, hsl, hsub.2, appendDiags_diags]
      exact Or.inl hmem
    | succ k =>
      simp only [List.get] at hobj
      have harith : i0 + (k + 1) = (i0 + 1) + k := by omega
      rw [harith] at hd
      cases hobj0 : item.asObj with
      | none =>
        have := ih h2 (i0 + 1) vals k (Nat.lt_of_succ_lt_succ hk) fields subs hobj hsl
          m hm d hd
        simp [processItems, hobj0, consDiag_diags]
        exact Or.inr this
      | some fields0 =>
        simp only [itemOk, hobj0] at h1
        cases hsl0 : (fields0.lookup "string_list_data").bind Json.asArr with
        | none =>
          have := ih h2 (i0 + 1) vals k (Nat.lt_of_succ_lt_succ hk) fields subs hobj hsl
            m hm d hd
          simp [processItems, hobj0, hsl0, consDiag_diags]
          exact Or.inr this
        | some subs0 =>
          simp only [hsl0] at h1
          have hsub := processSubs_ok i0 subs0 h1 0 vals
          have := ih h2 (i0 + 1) (processSubs i0 subs0 0 vals).1 k
            (Nat.lt_of_succ_lt_succ hk) fields subs hobj hsl m hm d hd
          simp [processItems, hobj0, hsl0, hsub.2, appendDiags_diags]
          exact Or.inr this

/-- Inner loop with a non-string `href` at a known position: the values
collected are exactly the incoming set joined with the hrefs of the
sub-records before the bad one, and the loop aborts. -/
theorem processSubs_abortAt (i : Nat) :
    ∀ (s1 : List Json), s1.all subOk = true →
      ∀ (bad : Json), hrefNonString bad = true →
      ∀ (s2 : List Json) (j : Nat) (vals : Finset String),
        (processSubs i (s1 ++ bad :: s2) j vals).1 = vals ∪ subsHrefs s1 ∧
        (processSubs i (s1 ++ bad :: s2) j vals).2.2 = true := by
  intro s1
  induction s1 with
  | nil =>
    intro _ bad hb s2 j vals
    cases hobj : bad.asObj with
    | none => simp [hrefNonString, hobj] at hb
    | some fields =>
      simp only [hrefNonString, hobj] at hb
      cases hl : fields.lookup "href" with
      | none => rw [hl] at hb; simp at hb
      | some v =>
        simp only [hl] at hb
        cases hs : v.asStr with
        | some s => rw [hs] at hb; simp at hb
        | none => simp [processSubs, subsHrefs, hobj, hl, hs]
  | cons sub rest ih =>
    intro h bad hb s2 j vals
    rw [List.all_cons, Bool.and_eq_true] at h
    obtain ⟨h1, h2⟩ := h
    cases hobj : sub.asObj with
    | none =>
      have hv := ih h2 bad hb s2 (j + 1) vals
      simp [processSubs, subsHrefs, subHrefs, hobj, consDiag_fst, consDiag_abort,
        hv.1, hv.2, Finset.union_assoc]
    | some fields =>
      simp only [subOk, hobj] at h1
      cases hl : fields.lookup "href" with
      | none =>
        have hv := ih h2 bad hb s2 (j + 1) vals
        simp [processSubs, subsHrefs, subHrefs, hobj, hl, consDiag_fst, consDiag_abort,
          hv.1, hv.2, Finset.union_assoc]
      | some v =>
        simp only [hl] at h1
        cases hs : v.asStr with
        | none => rw [hs] at h1; simp at h1
        | some s =>
          have hv := ih h2 bad hb s2 (j + 1) (insert (pyRstripSlash s) vals)
          refine ⟨?_, by simpa [processSubs, hobj, hl, hs] using hv.2⟩
          have hfst : (processSubs i ((sub :: rest) ++ bad :: s2) j vals).1 =
              insert (pyRstripSlash s) vals ∪ subsHrefs rest := by
            simpa [processSubs, hobj, hl, hs] using hv.1
          rw [hfst]
          simp [subsHrefs, subHrefs, hobj, hl, hs, Finset.insert_eq,
            Finset.union_assoc, Finset.union_left_comm, Finset.union_comm]

/-- Outer loop where record `l1.length` has a non-string `href` among its
sub-records: the values collected are those of `l1` plus those of the
well-formed sub-records preceding the bad one, and the loop aborts; the
remaining records `l2` and sub-records `s2` contribute nothing. -/
theorem processItems_abortAt :
    ∀ (l1 : List Json), itemsOk l1 = true →
      ∀ (s1 : List Json), s1.all subOk = true →
      ∀ (bad : Json), hrefNonString bad = true →
      ∀ (s2 l2 : List Json) (i0 : Nat) (vals : Finset String),
        (processItems (l1 ++ mkSldsItem (s1 ++ bad :: s2) :: l2) i0 vals).1 =
          vals ∪ itemsHrefs l1 ∪ subsHrefs s1 ∧
        (processItems (l1 ++ mkSldsItem (s1 ++ bad :: s2) :: l2) i0 vals).2.2 = true := by
  intro l1
  induction l1 with
  | nil =>
    intro _ s1 hs1 bad hb s2 l2 i0 vals
    have hsub := processSubs_abortAt i0 s1 hs1 bad hb s2 0 vals
    constructor
    · simp [processItems, mkSldsItem, Json.asObj, Json.asArr, List.lookup,
        hsub.1, hsub.2, itemsHrefs, Finset.union_assoc]
    · simp [processItems, mkSldsItem, Json.asObj, Json.asArr, List.lookup, hsub.2]
  | cons item rest ih =>
    intro h s1 hs1 bad hb s2 l2 i0 vals
    rw [itemsOk, List.all_cons, Bool.and_eq_true] at h
    obtain ⟨h1, h2⟩ := h
    cases hobj : item.asObj with
    | none =>
      have hv := ih h2 s1 hs1 bad hb s2 l2 (i0 + 1) vals
      simp [processItems, itemsHrefs, itemHrefs, hobj, consDiag_fst, consDiag_abort,
        hv.1, hv.2, Finset.union_assoc]
    | some fields =>
      simp only [itemOk, hobj] at h1
      cases hsl : (fields.lookup "string_list_data").bind Json.asArr with
      | none =>
        have hv := ih h2 s1 hs1 bad hb s2 l2 (i0 + 1) vals
        simp [processItems, itemsHrefs, itemHrefs, hobj, hsl, consDiag_fst,
          consDiag_abort, hv.1, hv.2, Finset.union_assoc]
      | some subs =>
        simp only [hsl] at h1
        have hsub := processSubs_ok i0 subs h1 0 vals
        have hv := ih h2 s1 hs1 bad hb s2 l2 (i0 + 1) (vals ∪ subsHrefs subs)
        constructor
        · simp [processItems, hobj, hsl, hsub.1, hsub.2, appendDiags_fst, hv.1,
            itemsHrefs, itemHrefs, Finset.union_assoc]
        · simp [processItems, hobj, hsl, hsub.1, hsub.2, appendDiags_abort, hv.2]

/-- Every string in the inner loop's value set was already there or is the
image of `pyRstripSlash`. -/
theorem processSubs_mem_norm (i : Nat) :
    ∀ (subs : List Json) (j : Nat) (vals : Finset String) (x : String),
      x ∈ (processSubs i subs j vals).1 → x ∈ vals ∨ ∃ s, x = pyRstripSlash s := by
  intro subs
  induction subs with
  | nil => intro j vals x hx; left; simpa [processSubs] using hx
  | cons sub rest ih =>
    intro j vals x hx
    cases hobj : sub.asObj with
    | none =>
      simp only [processSubs, hobj, consDiag_fst] at hx
      exact ih (j + 1) vals x hx
    | some fields =>
      cases hl : fields.lookup "href" with
      | none =>
        simp only [processSubs, hobj, hl, consDiag_fst] at hx
        exact ih (j + 1) vals x hx
      | some v =>
        cases hs : v.asStr with
        | none =>
          simp only [processSubs, hobj, hl, hs] at hx
          exact Or.inl hx
        | some s =>
          simp only [processSubs, hobj, hl, hs] at hx
          rcases ih (j + 1) _ x hx with hmem | hex
          · rcases Finset.mem_insert.mp hmem with h | h
            · exact Or.inr ⟨s, h⟩
            · exact Or.inl h
          · exact Or.inr hex

/-- Every string in the outer loop's value set was already there or is the
image of `pyRstripSlash`. -/
theorem processItems_mem_norm :
    ∀ (items : List Json) (i : Nat) (vals : Finset String) (x : String),
      x ∈ (processItems items i vals).1 → x ∈ vals ∨ ∃ s, x = pyRstripSlash s := by
  intro items
  induction items with
  | nil => intro i vals x hx; left; simpa [processItems] using hx
  | cons item rest ih =>
    intro i vals x hx
    cases hobj : item.asObj with
    | none =>
      simp only [processItems, hobj, consDiag_fst] at hx
      exact ih (i + 1) vals x hx
    | some fields =>
      cases hsl : (fields.lookup "string_list_data").bind Json.asArr with
      | none =>
        simp only [processItems, hobj, hsl, consDiag_fst] at hx
        exact ih (i + 1) vals x hx
      | some subs =>
        simp only [processItems, hobj, hsl] at hx
        cases habort : (processSubs i subs 0 vals).2.2 with
        | true =>
          rw [habort, if_pos rfl] at hx
          exact processSubs_mem_norm i subs 0 vals x hx
        | false =>
          rw [habort] at hx
          simp only [Bool.false_eq_true, if_false, appendDiags_fst] at hx
          rcases ih (i + 1) _ x hx with hmem | hex
          · exact processSubs_mem_norm i subs 0 vals x hmem
          · exact Or.inr hex

/-- Every string extracted by `get_values_from_json` is the image of
`pyRstripSlash`. -/
theorem mem_get_norm (file : FileRead) (x : String) :
    x ∈ (get_values_from_json file).1 → ∃ s, x = pyRstripSlash s := by
  intro hx
  cases file with
  | notFound => simp [get_values_from_json] at hx
  | invalidJson => simp [get_values_from_json] at hx
  | parsed data =>
    cases harr : data.asArr with
    | some items =>
      simp only [get_values_from_json, harr, runItems] at hx
      rcases processItems_mem_norm items 0 ∅ x hx with hmem | hex
      · simp at hmem
      · exact hex
    | none =>
      cases hshape : data.asObj.bind
          (fun fields => (fields.lookup "relationships_following").bind Json.asArr) with
      | some items =>
        simp only [get_values_from_json, harr, hshape, runItems] at hx
        rcases processItems_mem_norm items 0 ∅ x hx with hmem | hex
        · simp at hmem
        · exact hex
      | none => simp [get_values_from_json, harr, hshape] at hx

/-! ### Claims -/

/-- Claim C1: for every pair of input sets (followers, following), the
script computes exactly `mutuals = followers ∩ following`,
`not_following_back = following − followers` and
`you_dont_follow_back = followers − following`, and the report's three
sections are built from exactly these three sets (and every produced
report goes through `reportText`). -/
theorem c1_derived_sets (f g : Finset String) (x : String) :
    (x ∈ mutuals f g ↔ x ∈ f ∧ x ∈ g) ∧
    (x ∈ not_following_back f g ↔ x ∈ g ∧ x ∉ f) ∧
    (x ∈ you_dont_follow_back f g ↔ x ∈ f ∧ x ∉ g) ∧
    reportText f g =
      "--- Instagram List Analysis ---\n\n" ++
        sectionText "Users you follow who DO NOT follow you back:"
          (not_following_back f g) ++
        sectionText "Users who follow you that you DO NOT follow back:"
          (you_dont_follow_back f g) ++
        sectionText "Mutual followers (you follow each other):"
          (mutuals f g) ∧
    (∀ F G : FileRead, analyze_instagram_lists F G = none ∨
      analyze_instagram_lists F G =
        some (reportText (get_values_from_json F).1 (get_values_from_json G).1)) := by
  refine ⟨?_, ?_, ?_, rfl, ?_⟩
  · simp [mutuals, Finset.mem_inter]
  · simp [not_following_back, Finset.mem_sdiff, and_comm]
  · simp [you_dont_follow_back, Finset.mem_sdiff]
  · intro F G
    by_cases hc : (get_values_from_json F).1 = ∅ ∧ (get_values_from_json G).1 = ∅
    · left; simp [analyze_instagram_lists, hc.1, hc.2]
    · right
      simp only [analyze_instagram_lists]
      rw [if_neg hc]

/-- Claim C2: the three derived sets cover `followers ∪ following` and
are pairwise disjoint. -/
theorem c2_partition (f g : Finset String) :
    mutuals f g ∪ not_following_back f g ∪ you_dont_follow_back f g = f ∪ g ∧
    Disjoint (mutuals f g) (not_following_back f g) ∧
    Disjoint (mutuals f g) (you_dont_follow_back f g) ∧
    Disjoint (not_following_back f g) (you_dont_follow_back f g) := by
  refine ⟨?_, ?_, ?_, ?_⟩
  · ext x
    simp only [mutuals, not_following_back, you_dont_follow_back, Finset.mem_union,
      Finset.mem_inter, Finset.mem_sdiff]
    tauto
  · rw [Finset.disjoint_left]
    intro a ha hb
    simp only [mutuals, not_following_back, Finset.mem_inter, Finset.mem_sdiff] at ha hb
    tauto
  · rw [Finset.disjoint_left]
    intro a ha hb
    simp only [mutuals, you_dont_follow_back, Finset.mem_inter, Finset.mem_sdiff] at ha hb
    tauto
  · rw [Finset.disjoint_left]
    intro a ha hb
    simp only [not_following_back, you_dont_follow_back, Finset.mem_sdiff] at ha hb
    tauto

/-- Claim C3: when both extracted sets are empty the analysis is skipped
and no output is produced (`none`); otherwise the report is computed and
written. -/
theorem c3_empty_short_circuit (F G : FileRead) :
    ((get_values_from_json F).1 = ∅ ∧ (get_values_from_json G).1 = ∅ →
      analyze_instagram_lists F G = none) ∧
    (¬((get_values_from_json F).1 = ∅ ∧ (get_values_from_json G).1 = ∅) →
      analyze_instagram_lists F G =
        some (reportText (get_values_from_json F).1 (get_values_from_json G).1)) := by
  constructor
  · intro h
    simp [analyze_instagram_lists, h.1, h.2]
  · intro h
    simp only [analyze_instagram_lists]
    rw [if_neg h]

/-- Witness for C3: two empty parsed lists produce no report; a
non-empty followers file with a missing following file produces one. -/
theorem c3_witness :
    analyze_instagram_lists (FileRead.parsed (Json.arr []))
      (FileRead.parsed (Json.arr [])) = none ∧
    analyze_instagram_lists (FileRead.parsed demoFollowers) FileRead.notFound =
      some (reportText (get_values_from_json (FileRead.parsed demoFollowers)).1
        (get_values_from_json FileRead.notFound).1) := by
  constructor
  · exact (c3_empty_short_circuit (FileRead.parsed (Json.arr []))
      (FileRead.parsed (Json.arr []))).1 ⟨by decide, by decide⟩
  · exact (c3_empty_short_circuit (FileRead.parsed demoFollowers)
      FileRead.notFound).2 (by decide)

/-- Counterexample to C4 as stated: `demoWrongKey` is a mapping containing
a key (`"foo"`) whose value is a sequence holding one well-formed record
with href `"x"`; the claim says extraction uses that sequence (which would
produce the set containing `"x"`), but the code requires the specific key
`relationships_following`, reports an unrecognized shape and returns the
empty set. -/
theorem c4_counterexample :
    List.lookup "foo" [("foo", Json.arr [goodRec "x"])] =
      some (Json.arr [goodRec "x"]) ∧
    demoWrongKey = Json.obj [("foo", Json.arr [goodRec "x"])] ∧
    get_values_from_json (FileRead.parsed demoWrongKey) =
      (∅, [Diag.unexpectedShape]) ∧
    runItems [goodRec "x"] = ({"x"}, []) := by
  exact ⟨rfl, rfl, by decide, by decide⟩

/-- Claim C4 (amended): a parsed sequence is used directly as the record
list; a parsed mapping is used only through the specific key
`relationships_following` when that key's value is a sequence; every other
parsed value yields the unrecognized-shape diagnostic and the empty set,
with no partial extraction. -/
theorem c4_shape_amended (items : List Json) (fields : List (String × Json)) (j : Json) :
    get_values_from_json (FileRead.parsed (Json.arr items)) = runItems items ∧
    (fields.lookup "relationships_following" = some (Json.arr items) →
      get_values_from_json (FileRead.parsed (Json.obj fields)) = runItems items) ∧
    (j.asArr = none →
      j.asObj.bind
        (fun fs => (fs.lookup "relationships_following").bind Json.asArr) = none →
      get_values_from_json (FileRead.parsed j) = (∅, [Diag.unexpectedShape])) := by
  refine ⟨rfl, ?_, ?_⟩
  · intro h
    simp [get_values_from_json, Json.asArr, Json.asObj, h]
  · intro h1 h2
    simp [get_values_from_json, h1, h2]

/-- Witness for C4 (amended): a top-level list, a top-level dict with the
`relationships_following` key, and a top-level `null`. -/
theorem c4_shape_witness :
    get_values_from_json (FileRead.parsed (Json.arr [])) = runItems [] ∧
    get_values_from_json
        (FileRead.parsed (Json.obj [("relationships_following", Json.arr [])])) =
      runItems [] ∧
    get_values_from_json (FileRead.parsed Json.null) = (∅, [Diag.unexpectedShape]) :=
  ⟨(c4_shape_amended [] [("relationships_following", Json.arr [])] Json.null).1,
   (c4_shape_amended [] [("relationships_following", Json.arr [])] Json.null).2.1 rfl,
   (c4_shape_amended [] [("relationships_following", Json.arr [])] Json.null).2.2 rfl rfl⟩

/-- Claim C5: when no sub-record raises (no non-string `href` is reached),
a malformed record or sub-record loses only its own contribution: the loop
never aborts, the extracted set is exactly the hrefs of all well-formed
sub-records of all records (so identifiers after a malformed record are
still returned), each skipped record and each skipped sub-record leaves
its diagnostic, and every record's own hrefs are contained in the result. -/
theorem c5_item_granularity (items : List Json) (h : itemsOk items = true) :
    (processItems items 0 ∅).1 = itemsHrefs items ∧
    (processItems items 0 ∅).2.2 = false ∧
    get_values_from_json (FileRead.parsed (Json.arr items)) =
      (itemsHrefs items, (processItems items 0 ∅).2.1) ∧
    (∀ (k : Nat) (hk : k < items.length) (d : Diag),
      recordSkipDiag k (items.get ⟨k, hk⟩) = some d →
      d ∈ (processItems items 0 ∅).2.1) ∧
    (∀ (k : Nat) (hk : k < items.length) (fields : List (String × Json))
        (subs : List Json),
      (items.get ⟨k, hk⟩).asObj = some fields →
      (fields.lookup "string_list_data").bind Json.asArr = some subs →
      ∀ (m : Nat) (hm : m < subs.length) (d : Diag),
        subSkipDiag k m (subs.get ⟨m, hm⟩) = some d →
        d ∈ (processItems items 0 ∅).2.1) ∧
    (∀ item ∈ items, itemHrefs item ⊆ (processItems items 0 ∅).1) := by
  have hok := processItems_ok items h 0 ∅
  have hfst : (processItems items 0 ∅).1 = itemsHrefs items := by
    rw [hok.1]; simp
  refine ⟨hfst, hok.2, ?_, ?_, ?_, ?_⟩
  · simp [get_values_from_json, Json.asArr, runItems, hok.2, hfst]
  · intro k hk d hd
    have h0 : (0 : Nat) + k = k := by omega
    exact processItems_skip_mem items h 0 ∅ k hk d (by rw [h0]; exact hd)
  · intro k hk fields subs hobj hsl m hm d hd
    have h0 : (0 : Nat) + k = k := by omega
    exact processItems_subdiag_mem items h 0 ∅ k hk fields subs hobj hsl m hm d
      (by rw [h0]; exact hd)
  · intro item hmem
    rw [hfst]
    exact itemHrefs_subset_itemsHrefs hmem

/-- Witness for C5: a non-dict record sits between two well-formed
records; both identifiers are extracted and the skip is reported. -/
theorem c5_witness :
    itemsOk demoSkipItems = true ∧
    (processItems demoSkipItems 0 ∅).1 = itemsHrefs demoSkipItems ∧
    Diag.itemNotDict 1 ∈ (processItems demoSkipItems 0 ∅).2.1 := by
  refine ⟨by decide, (c5_item_granularity demoSkipItems (by decide)).1, ?_⟩
  exact (c5_item_granularity demoSkipItems (by decide)).2.2.2.1 1 (by decide)
    (Diag.itemNotDict 1) (by decide)

/-- Claim C6: each whole-file failure (missing file, invalid JSON,
unrecognized top-level shape) yields the empty set plus the matching
diagnostic; the function is total, so it never propagates a fault. -/
theorem c6_whole_file_failures (j : Json) :
    get_values_from_json FileRead.notFound = (∅, [Diag.fileNotFound]) ∧
    get_values_from_json FileRead.invalidJson = (∅, [Diag.invalidJson]) ∧
    (j.asArr = none →
      j.asObj.bind
        (fun fs => (fs.lookup "relationships_following").bind Json.asArr) = none →
      get_values_from_json (FileRead.parsed j) = (∅, [Diag.unexpectedShape])) := by
  refine ⟨rfl, rfl, ?_⟩
  intro h1 h2
  simp [get_values_from_json, h1, h2]

/-- Witness for C6: a top-level number is an unrecognized shape. -/
theorem c6_witness :
    get_values_from_json FileRead.notFound = (∅, [Diag.fileNotFound]) ∧
    get_values_from_json (FileRead.parsed (Json.num 0)) =
      (∅, [Diag.unexpectedShape]) :=
  ⟨(c6_whole_file_failures (Json.num 0)).1,
   (c6_whole_file_failures (Json.num 0)).2.2 rfl rfl⟩

/-- Claim C7: every extracted identifier is a fixpoint of the
trailing-slash normalisation, so no two extracted entries differ only by
trailing slashes; concretely, hrefs `a/b/` and `a/b` collapse to the
single entry `a/b`. -/
theorem c7_normalization (file : FileRead) (x y : String)
    (hx : x ∈ (get_values_from_json file).1)
    (hy : y ∈ (get_values_from_json file).1) :
    pyRstripSlash x = x ∧
    (pyRstripSlash x = pyRstripSlash y → x = y) ∧
    get_values_from_json (FileRead.parsed demoCollapse) = ({"a/b"}, []) := by
  obtain ⟨s, hs⟩ := mem_get_norm file x hx
  obtain ⟨t, ht⟩ := mem_get_norm file y hy
  have hxf : pyRstripSlash x = x := by rw [hs, pyRstripSlash_idem]
  have hyf : pyRstripSlash y = y := by rw [ht, pyRstripSlash_idem]
  refine ⟨hxf, ?_, by decide⟩
  intro hxy
  rw [← hxf, hxy, hyf]

/-- Witness for C7 at the collapsing input. -/
theorem c7_witness :
    "a/b" ∈ (get_values_from_json (FileRead.parsed demoCollapse)).1 ∧
    pyRstripSlash "a/b" = "a/b" ∧
    get_values_from_json (FileRead.parsed demoCollapse) = ({"a/b"}, []) := by
  have h := c7_normalization (FileRead.parsed demoCollapse) "a/b" "a/b"
    (by decide) (by decide)
  exact ⟨by decide, h.1, h.2.2⟩

/-- Claim C8: when the short-circuit does not fire, the report is the
header followed by the three labeled sections in fixed order
(not-following-back, user-not-following-back, mutual); each section lists
its entries one per line behind a dash marker in strictly increasing
lexicographic order, renders `- None` when empty, and ends with a blank
line. -/
theorem c8_report_format (F G : FileRead) (t : String) (s : Finset String) :
    (¬((get_values_from_json F).1 = ∅ ∧ (get_values_from_json G).1 = ∅) →
      analyze_instagram_lists F G = some
        ("--- Instagram List Analysis ---\n\n" ++
          sectionText "Users you follow who DO NOT follow you back:"
            ((get_values_from_json G).1 \ (get_values_from_json F).1) ++
          sectionText "Users who follow you that you DO NOT follow back:"
            ((get_values_from_json F).1 \ (get_values_from_json G).1) ++
          sectionText "Mutual followers (you follow each other):"
            ((get_values_from_json F).1 ∩ (get_values_from_json G).1))) ∧
    List.Sorted (· < ·) (s.sort (· ≤ ·)) ∧
    (s = ∅ → sectionText t s = t ++ "\n" ++ "- None\n" ++ "\n") ∧
    (s ≠ ∅ → sectionText t s =
      t ++ "\n" ++
        String.join ((s.sort (· ≤ ·)).map (fun u => "- " ++ u ++ "\n")) ++ "\n") := by
  refine ⟨?_, Finset.sort_sorted_lt s, ?_, ?_⟩
  · intro h
    simp only [analyze_instagram_lists]
    rw [if_neg h]
    rfl
  · intro h
    simp [sectionText, h]
  · intro h
    simp [sectionText, h]

/-- Witness for C8: one produced report, an empty section and a
non-empty section. -/
theorem c8_witness :
    analyze_instagram_lists (FileRead.parsed demoFollowers) FileRead.notFound = some
      ("--- Instagram List Analysis ---\n\n" ++
        sectionText "Users you follow who DO NOT follow you back:"
          ((get_values_from_json FileRead.notFound).1 \
            (get_values_from_json (FileRead.parsed demoFollowers)).1) ++
        sectionText "Users who follow you that you DO NOT follow back:"
          ((get_values_from_json (FileRead.parsed demoFollowers)).1 \
            (get_values_from_json FileRead.notFound).1) ++
        sectionText "Mutual followers (you follow each other):"
          ((get_values_from_json (FileRead.parsed demoFollowers)).1 ∩
            (get_values_from_json FileRead.notFound).1)) ∧
    sectionText "T:" ∅ = "T:" ++ "\n" ++ "- None\n" ++ "\n" ∧
    sectionText "T:" {"a"} =
      "T:" ++ "\n" ++
        String.join ((({"a"} : Finset String).sort (· ≤ ·)).map
          (fun u => "- " ++ u ++ "\n")) ++ "\n" := by
  refine ⟨?_, ?_, ?_⟩
  · exact (c8_report_format (FileRead.parsed demoFollowers) FileRead.notFound "T:" ∅).1
      (by decide)
  · exact (c8_report_format (FileRead.parsed demoFollowers) FileRead.notFound "T:" ∅).2.2.1
      rfl
  · exact (c8_report_format (FileRead.parsed demoFollowers) FileRead.notFound "T:"
      {"a"}).2.2.2 (by decide)

/-- Claim C9: a sub-record whose `href` is present but not a string makes
the extraction raise; the generic handler stops all further processing
(records `l2` and sub-records `s2` contribute nothing), reports the
unexpected error, and the partial set collected before the failure is
returned. -/
theorem c9_partial_on_exception (l1 s1 s2 l2 : List Json) (bad : Json)
    (h1 : itemsOk l1 = true) (h2 : s1.all subOk = true)
    (hb : hrefNonString bad = true) :
    (get_values_from_json (FileRead.parsed
        (Json.arr (l1 ++ mkSldsItem (s1 ++ bad :: s2) :: l2)))).1 =
      itemsHrefs l1 ∪ subsHrefs s1 ∧
    Diag.unexpectedError ∈ (get_values_from_json (FileRead.parsed
        (Json.arr (l1 ++ mkSldsItem (s1 ++ bad :: s2) :: l2)))).2 ∧
    (processItems (l1 ++ mkSldsItem (s1 ++ bad :: s2) :: l2) 0 ∅).2.2 = true := by
  have h := processItems_abortAt l1 h1 s1 h2 bad hb s2 l2 0 ∅
  refine ⟨?_, ?_, h.2⟩
  · simp [get_values_from_json, Json.asArr, runItems, h.1, Finset.union_assoc]
  · simp [get_values_from_json, Json.asArr, runItems, h.2]

/-- Witness for C9: the record with the numeric `href` loses its later
sub-record `c`, and the later record `d` is lost too, while `a` and `b`
survive. -/
theorem c9_witness :
    itemsOk [goodRec "a"] = true ∧
    [goodSub "b"].all subOk = true ∧
    hrefNonString (Json.obj [("href", Json.num 7)]) = true ∧
    (get_values_from_json (FileRead.parsed
        (Json.arr ([goodRec "a"] ++
          mkSldsItem ([goodSub "b"] ++ Json.obj [("href", Json.num 7)] ::
            [goodSub "c"]) :: [goodRec "d"])))).1 =
      itemsHrefs [goodRec "a"] ∪ subsHrefs [goodSub "b"] := by
  refine ⟨by decide, by decide, by decide, ?_⟩
  exact (c9_partial_on_exception [goodRec "a"] [goodSub "b"] [goodSub "c"]
    [goodRec "d"] (Json.obj [("href", Json.num 7)])
    (by decide) (by decide) (by decide)).1

/-- Claim C10: no extracted identifier ends with a slash; an href of just
`"/"` normalises to the empty string, which is still added to the set. -/
theorem c10_no_trailing_slash (file : FileRead) (x : String)
    (hx : x ∈ (get_values_from_json file).1) :
    endsWithSlash x = false ∧
    pyRstripSlash "/" = "" ∧
    get_values_from_json (FileRead.parsed demoSlashOnly) = ({""}, []) := by
  obtain ⟨s, hs⟩ := mem_get_norm file x hx
  refine ⟨?_, by decide, by decide⟩
  rw [hs]
  exact endsWithSlash_pyRstripSlash s

/-- Witness for C10: the empty string is extracted from the slash-only
href and indeed does not end with a slash. -/
theorem c10_witness :
    "" ∈ (get_values_from_json (FileRead.parsed demoSlashOnly)).1 ∧
    endsWithSlash "" = false ∧
    get_values_from_json (FileRead.parsed demoSlashOnly) = ({""}, []) := by
  have h := c10_no_trailing_slash (FileRead.parsed demoSlashOnly) "" (by decide)
  exact ⟨by decide, h.1, h.2.2⟩

end Insta
